import Mathlib

/-!
Verification of the responsive-image pipeline of metalsmith-optimize-images.

The JavaScript source is shallowly embedded: image buffers are lists of
bytes, the Sharp codec is abstracted as a decode function and a per
(width, format) encode oracle, the Metalsmith files object and the
processed-image cache are association lists, and the DOM subtree built by
the picture rewriter is a two-level element tree (a picture element whose
children are childless source and img elements, which is the exact shape
the rewriter constructs).
-/

set_option maxRecDepth 4096

namespace OptImg

/-- Image bytes, as in a Node Buffer. -/
abbrev Buffer := List Nat

/-- Association-list lookup with first-match semantics, mirroring
JavaScript object / Map key access. -/
def assocLookup {α : Type} : List (String × α) → String → Option α
  | [], _ => none
  | (k, v) :: rest, key => if k = key then some v else assocLookup rest key

/-- Association-list update mirroring `obj[key] = v` / `map.set(key, v)`:
replace the first binding of the key in place, or append a new binding. -/
def assocSet {α : Type} : List (String × α) → String → α → List (String × α)
  | [], key, v => [(key, v)]
  | (k, w) :: rest, key, v =>
    if k = key then (key, v) :: rest else (k, w) :: assocSet rest key v

theorem assocLookup_assocSet_self {α : Type} (l : List (String × α)) (k : String) (v : α) :
    assocLookup (assocSet l k v) k = some v := by
  induction l with
  | nil => simp [assocSet, assocLookup]
  | cons hd tl ih =>
    by_cases h : hd.1 = k <;> simp [assocSet, assocLookup, h, ih]

theorem assocLookup_assocSet_ne {α : Type} (l : List (String × α)) (k k' : String) (v : α)
    (h : k ≠ k') : assocLookup (assocSet l k v) k' = assocLookup l k' := by
  induction l with
  | nil => simp [assocSet, assocLookup, h]
  | cons hd tl ih =>
    by_cases hh : hd.1 = k
    · simp [assocSet, assocLookup, hh, h]
    · by_cases hk : hd.1 = k' <;> simp [assocSet, assocLookup, hh, hk, ih, Ne.symm h]

/-- Count of occurrences of an element in a list. -/
def countOcc {α : Type} [DecidableEq α] (a : α) : List α → Nat
  | [] => 0
  | b :: l => (if b = a then 1 else 0) + countOcc a l

theorem countOcc_zero_not_mem {α : Type} [DecidableEq α] {a : α} {l : List α}
    (h : countOcc a l = 0) : a ∉ l := by
  induction l with
  | nil => simp
  | cons b t ih =>
    by_cases hb : b = a
    · simp [countOcc, hb] at h
    · simp [countOcc, hb] at h
      simp [ih h]
      exact fun he => hb he.symm

theorem countOcc_eq_one_decomp {α : Type} [DecidableEq α] {a : α} {l : List α}
    (h : countOcc a l = 1) :
    ∃ l₁ l₂, l = l₁ ++ a :: l₂ ∧ countOcc a l₁ = 0 ∧ countOcc a l₂ = 0 := by
  induction l with
  | nil => simp [countOcc] at h
  | cons b t ih =>
    by_cases hb : b = a
    · subst hb
      refine ⟨[], t, rfl, rfl, ?_⟩
      simpa [countOcc] using h
    · simp [countOcc, hb] at h
      obtain ⟨l₁, l₂, he, h1, h2⟩ := ih h
      exact ⟨b :: l₁, l₂, by simp [he], by simp [countOcc, hb, h1], h2⟩

/-- Concatenation of a list of lists, as in JavaScript's `Array.flat()`. -/
def concatAll {α : Type} : List (List α) → List α
  | [] => []
  | x :: xs => x ++ concatAll xs

theorem mem_concatAll {α : Type} {a : α} {ls : List (List α)} :
    a ∈ concatAll ls ↔ ∃ l ∈ ls, a ∈ l := by
  induction ls with
  | nil => simp [concatAll]
  | cons x xs ih => simp [concatAll, ih]

/-- The `String.prototype.startsWith` test, modeled on the character list. -/
def strStartsWith (s pre : String) : Bool :=
  pre.toList.isPrefixOf s.toList

/-- The `String.prototype.endsWith` test, modeled on the character list. -/
def strEndsWith (s suf : String) : Bool :=
  suf.toList.isSuffixOf s.toList

/-- Infix test on character lists, used for `String.prototype.includes`. -/
def listInfix (t s : List Char) : Bool :=
  (List.range (s.length + 1)).any (fun i => t.isPrefixOf (List.drop i s))

/-- The `String.prototype.includes` test, modeled on the character list. -/
def strContains (s t : String) : Bool :=
  listInfix t.toList s.toList

theorem isPrefixOf_append (l m : List Char) : l.isPrefixOf (l ++ m) = true := by
  induction l with
  | nil => simp [List.isPrefixOf]
  | cons a t ih => simp [List.isPrefixOf, ih]

theorem isPrefixOf_trans {a b c : List Char}
    (h1 : a.isPrefixOf b = true) (h2 : b.isPrefixOf c = true) : a.isPrefixOf c = true := by
  rw [List.isPrefixOf_iff_prefix] at h1 h2 ⊢
  exact h1.trans h2

theorem strStartsWith_trans {s p q : String}
    (h1 : strStartsWith s p = true) (h2 : strStartsWith p q = true) :
    strStartsWith s q = true :=
  isPrefixOf_trans h2 h1

/-- Lowercasing, as in `String.prototype.toLowerCase` on ASCII data. -/
def toLowerStr (s : String) : String :=
  String.mk (s.data.map Char.toLower)

/-- The `String.prototype.slice(n)` operation on ASCII data. -/
def strDrop (s : String) (n : Nat) : String :=
  String.mk (s.data.drop n)

/-- First-occurrence replacement on character lists. -/
def replaceFirstL (pat rep : List Char) : List Char → List Char
  | [] => []
  | c :: rest =>
    if pat.isPrefixOf (c :: rest) then rep ++ List.drop pat.length (c :: rest)
    else c :: replaceFirstL pat rep rest

/-- First-occurrence replacement, as in `String.prototype.replace` with a
string pattern. -/
def replaceFirst (s pat rep : String) : String :=
  String.mk (replaceFirstL pat.data rep.data s.data)

/-- Join with a separator, as in `Array.prototype.join`. -/
def joinWith (sep : String) : List String → String
  | [] => ""
  | [x] => x
  | x :: xs => x ++ sep ++ joinWith sep xs

/-- Node's `path.join` restricted to the simple two-segment uses in the plugin. -/
def pathJoin (a b : String) : String :=
  if a = "" then b else if b = "" then a else a ++ "/" ++ b

/-- The characters of a path after its last separator. -/
def lastComponent (l : List Char) : List Char :=
  l.foldl (fun acc c => if c = '/' then [] else acc ++ [c]) []

/-- Index of the last `.` in a character list, if any. -/
def lastDotIdx (l : List Char) : Option Nat :=
  (List.range l.length).foldl
    (fun acc i => if l.get? i = some '.' then some i else acc) none

/-- The `name` and `ext` components of Node's `path.parse`. -/
def pathParseNameExt (p : String) : String × String :=
  let base := lastComponent p.data
  match lastDotIdx base with
  | none => (String.mk base, "")
  | some 0 => (String.mk base, "")
  | some i => (String.mk (List.take i base), String.mk (List.drop i base))

/-- The part of a cache key before the first `:`, as in
`cacheKey.split(':')[0]`. -/
def beforeColon (s : String) : String :=
  String.mk (s.data.takeWhile (fun c => c != ':'))

/-! ## Data model -/

/-- Intrinsic metadata Sharp reports for a decoded image. -/
structure ImageMeta where
  width : Nat
  height : Nat
  format : String
deriving Repr, DecidableEq

/-- One generated variant object.  The JavaScript objects are duck-typed:
HTML-path variants carry `originalFormat` and `size`, background-path
variants carry `density`; absent fields are `none`. -/
structure Variant where
  path : String
  buffer : Buffer
  width : Nat
  height : Nat
  format : String
  originalFormat : Option String := none
  size : Option Nat := none
  density : Option String := none
deriving Repr, DecidableEq

/-- An entry of the Metalsmith files object. -/
structure FileRec where
  contents : Buffer
  mtime : Option Nat := none
deriving Repr, DecidableEq

/-- The mutable state threaded through image processing: the Metalsmith
files object, the processed-image cache (key `path:mtime`), and the number
of transcoder invocations (for the at-most-once property). -/
structure PState where
  files : List (String × FileRec)
  cache : List (String × List Variant)
  transcodeCount : Nat
deriving Repr, DecidableEq

/-- A childless element (source or img) inside the generated picture. -/
structure Elem where
  tag : String
  attribs : List (String × String)
deriving Repr, DecidableEq

/-- The replacement subtree the rewriter builds: an element whose children
are childless elements, which is the exact shape of the generated
`picture`. -/
structure Node where
  tag : String
  attribs : List (String × String)
  children : List Elem
deriving Repr, DecidableEq

/-- The resolved plugin configuration (the fields the core reads). -/
structure Config where
  widths : List Nat
  formats : List String
  htmlPattern : String
  outputDir : String
  outputPattern : String
  skipLarger : Bool
  lazy : Bool
  dimensionAttributes : Bool
  sizes : String
  concurrency : Nat
  generateMetadata : Bool
  isProgressive : Bool
  processUnusedImages : Bool
deriving Repr, DecidableEq

/-! ## Variant path builder (src/utils/paths.js `generateVariantPath`) -/

/-- The path builder `generateVariantPath(originalPath, width, format, hash, config)`:
token substitution on the configured output pattern, joined with the
output directory. -/
def generateVariantPath (originalPath : String) (width : Nat) (format : String)
    (hash : String) (config : Config) : String :=
  let parsed := pathParseNameExt originalPath
  let originalFormat := toLowerStr (strDrop parsed.2 1)
  let outputFormat := if format = "original" then originalFormat else format
  let outputName :=
    replaceFirst (replaceFirst (replaceFirst (replaceFirst config.outputPattern
      "[filename]" parsed.1) "[width]" (toString width)) "[format]" outputFormat)
      "[hash]" hash
  pathJoin config.outputDir outputName

/-! ## Image transcoder (src/processors/imageProcessor.js
`processImageToVariants`)

Sharp is abstracted: `dec` is the decoder (`sharp(buffer).metadata()`,
`none` when decoding throws), `enc` is the per-(width, format) encoder
(`toBuffer()`, `none` when the encode of that one pair throws), and
`hashFn` is the content-hash utility. -/

/-- Post-resize dimensions: requested width clamped by
`withoutEnlargement`, height by aspect ratio (rounded). -/
def resizedDims (meta : ImageMeta) (w : Nat) (withoutEnlargement : Bool) : Nat × Nat :=
  let aw := if withoutEnlargement then min w meta.width else w
  (aw, (meta.height * aw + meta.width / 2) / meta.width)

/-- The width filter applied when `skipLarger` is set. -/
def targetWidthsOf (config : Config) (meta : ImageMeta) : List Nat :=
  if config.skipLarger then config.widths.filter (fun w => w ≤ meta.width) else config.widths

/-- The body of the per-(width, format) closure in
`processImageToVariants`: skip the webp-source/original pair, otherwise
encode and build the variant object; `none` also models the caught
per-pair encode failure. -/
def pairVariant (metadata : ImageMeta) (hash : String) (originalPath : String)
    (config : Config) (enc : Nat → String → Option Buffer) (width : Nat)
    (format : String) : Option Variant :=
  if format = "original" && toLowerStr metadata.format == "webp" then none
  else
    let outputPath := generateVariantPath originalPath width format hash config
    match enc width format with
    | none => none
    | some formatBuffer =>
      some { path := outputPath
             buffer := formatBuffer
             width := width
             height := (resizedDims metadata width config.skipLarger).2
             format := if format = "original" then toLowerStr metadata.format else format
             originalFormat := some (toLowerStr metadata.format)
             size := some formatBuffer.length }

/-- The transcoder `processImageToVariants(buffer, originalPath, debugFn, config)`:
decode, filter widths, build the (width × format) matrix, dropping pairs
whose encode failed.  `none` models a decode failure propagating to the
caller. -/
def processImageToVariants (dec : Buffer → Option ImageMeta)
    (enc : Nat → String → Option Buffer) (hashFn : Buffer → String)
    (buffer : Buffer) (originalPath : String) (config : Config) :
    Option (List Variant) :=
  match dec buffer with
  | none => none
  | some metadata =>
    let hash := hashFn buffer
    let targetWidths := targetWidthsOf config metadata
    if targetWidths.isEmpty then some []
    else
      some (concatAll (targetWidths.map (fun width =>
        config.formats.filterMap (fun format =>
          pairVariant metadata hash originalPath config enc width format))))

theorem processImageToVariants_eq_rows (dec : Buffer → Option ImageMeta)
    (enc : Nat → String → Option Buffer) (hashFn : Buffer → String)
    (buffer : Buffer) (originalPath : String) (config : Config)
    (meta : ImageMeta) (hdec : dec buffer = some meta) :
    processImageToVariants dec enc hashFn buffer originalPath config =
      some (concatAll ((targetWidthsOf config meta).map (fun width =>
        config.formats.filterMap (fun format =>
          pairVariant meta (hashFn buffer) originalPath config enc width format)))) := by
  unfold processImageToVariants
  rw [hdec]
  by_cases he : (targetWidthsOf config meta).isEmpty
  · rw [List.isEmpty_iff] at he
    simp [he, concatAll]
  · simp [he]

/-! ## Picture-element rewriter (src/processors/htmlProcessor.js
`replacePictureElement`) -/

/-- Stable insertion keeping earlier elements in front of later equal
ones, matching JavaScript's stable `Array.prototype.sort`. -/
def insertByLe (le : Variant → Variant → Bool) (v : Variant) :
    List Variant → List Variant
  | [] => [v]
  | w :: ws => if le w v then w :: insertByLe le v ws else v :: w :: ws

/-- Stable sort by the given comparator. -/
def sortByLe (le : Variant → Variant → Bool) (l : List Variant) : List Variant :=
  l.foldl (fun acc v => insertByLe le v acc) []

/-- The ascending `sort((a, b) => a.width - b.width)`. -/
def sortByWidthAsc (l : List Variant) : List Variant :=
  sortByLe (fun a b => a.width ≤ b.width) l

/-- The descending `sort((a, b) => b.width - a.width)`. -/
def sortByWidthDesc (l : List Variant) : List Variant :=
  sortByLe (fun a b => b.width ≤ a.width) l

/-- One step of grouping variants by `format`, preserving first-seen key
order as JavaScript object insertion does. -/
def groupAdd (acc : List (String × List Variant)) (v : Variant) :
    List (String × List Variant) :=
  match acc with
  | [] => [(v.format, [v])]
  | (k, g) :: rest =>
    if k = v.format then (k, g ++ [v]) :: rest else (k, g) :: groupAdd rest v

/-- The `variantsByFormat` grouping of variants by their `format` field. -/
def groupByFormat (variants : List Variant) : List (String × List Variant) :=
  variants.foldl groupAdd []

/-- The srcset string `"/path 320w, /path 640w"`. -/
def srcsetOf (sorted : List Variant) : String :=
  joinWith ", "
    (sorted.map (fun v => "/" ++ v.path ++ " " ++ toString v.width ++ "w"))

/-- The rewriter `replacePictureElement($, $img, variants, config)` as a pure function
from the original element's attributes to the replacement subtree;
`none` models the untouched element when the variant list is empty. -/
def replacePictureElement (attribs : List (String × String))
    (variants : List Variant) (config : Config) : Option Node :=
  if variants.isEmpty then none
  else
    let src := (assocLookup attribs "src").getD ""
    let alt := (assocLookup attribs "alt").getD ""
    let className := (assocLookup attribs "class").getD ""
    let sizesAttr :=
      match assocLookup attribs "sizes" with
      | some s => if s = "" then config.sizes else s
      | none => config.sizes
    let variantsByFormat := groupByFormat variants
    let fmtSources := config.formats.filterMap (fun format =>
      if format = "original" then none
      else
        match assocLookup variantsByFormat format with
        | none => none
        | some formatVariants =>
          if formatVariants.isEmpty then none
          else
            some (Elem.mk "source"
              [("type", "image/" ++ format),
               ("srcset", srcsetOf (sortByWidthAsc formatVariants)),
               ("sizes", sizesAttr)]))
    let origSources :=
      match variantsByFormat.find? (fun kv => kv.1 != "avif" && kv.1 != "webp") with
      | none => []
      | some kv =>
        [Elem.mk "source"
          [("type", "image/" ++ kv.1),
           ("srcset", srcsetOf (sortByWidthAsc kv.2)),
           ("sizes", sizesAttr)]]
    let imgAttrs := [("src", src), ("alt", alt)]
    let imgAttrs := if className != "" then imgAttrs ++ [("class", className)] else imgAttrs
    let imgAttrs := if config.lazy then imgAttrs ++ [("loading", "lazy")] else imgAttrs
    let imgAttrs :=
      if config.dimensionAttributes && !variants.isEmpty then
        match (sortByWidthDesc variants).head? with
        | some largestVariant =>
          imgAttrs ++ [("width", toString largestVariant.width),
                       ("height", toString largestVariant.height)]
        | none => imgAttrs
      else imgAttrs
    let passThrough := attribs.filter (fun kv =>
      !(["src", "alt", "class", "width", "height", "sizes"].contains kv.1))
    some (Node.mk "picture" []
      (fmtSources ++ origSources ++ [Elem.mk "img" (imgAttrs ++ passThrough)]))

/-! ## Per-image orchestration (src/processors/imageProcessor.js
`processImage`)

The filesystem fallback read from the build directory is modeled by the
`fsFiles` map; `now` models `Date.now()`.  The second component of the
result is `none` when the element is skipped and left untouched, and
`some (variants, replacement)` when the rewriter was invoked with
`variants`. -/

/-- Leading-slash normalization of the src attribute. -/
def normalizeSrc (src : String) : String :=
  if strStartsWith src "/" then strDrop src 1 else src

/-- File modification time with the `mtime || Date.now()` fallback
(`0` is falsy in JavaScript). -/
def fileMtimeOf (frec : FileRec) (now : Nat) : Nat :=
  match frec.mtime with
  | some m => if m = 0 then now else m
  | none => now

/-- The per-image orchestration `processImage(context)`. -/
def processImage (dec : Buffer → Option ImageMeta)
    (enc : Nat → String → Option Buffer) (hashFn : Buffer → String)
    (fsFiles : List (String × FileRec)) (attribs : List (String × String))
    (st : PState) (now : Nat) (config : Config) :
    PState × Option (List Variant × Option Node) :=
  match assocLookup attribs "src" with
  | none => (st, none)
  | some src =>
    if src = "" || strStartsWith src "http" || strStartsWith src "data:" then (st, none)
    else
      let normalizedSrc := normalizeSrc src
      let loaded : PState × Option FileRec :=
        match assocLookup st.files normalizedSrc with
        | some frec => (st, some frec)
        | none =>
          match assocLookup fsFiles normalizedSrc with
          | some frec =>
            ({ st with files := assocSet st.files normalizedSrc frec }, some frec)
          | none => (st, none)
      match loaded with
      | (st', none) => (st', none)
      | (st', some frec) =>
        let cacheKey := normalizedSrc ++ ":" ++ toString (fileMtimeOf frec now)
        match assocLookup st'.cache cacheKey with
        | some variants =>
          (st', some (variants, replacePictureElement attribs variants config))
        | none =>
          match processImageToVariants dec enc hashFn frec.contents normalizedSrc config with
          | none => ({ st' with transcodeCount := st'.transcodeCount + 1 }, none)
          | some variants =>
            let files' := variants.foldl
              (fun fs v => assocSet fs v.path { contents := v.buffer }) st'.files
            ({ files := files'
               cache := assocSet st'.cache cacheKey variants
               transcodeCount := st'.transcodeCount + 1 },
             some (variants, replacePictureElement attribs variants config))

/-! ## Configuration resolver (src/utils/config.js `deepMerge` and
`buildConfig`)

The loosely-typed options bag is modeled as a JSON-like value so that the
recursive merge is stated on the same shape the JavaScript operates on. -/

mutual

/-- A JavaScript plain value as the options bag holds them (a mutual
inductive so that recursion over it is structural). -/
inductive JVal where
  | num (n : Int)
  | str (s : String)
  | boolv (b : Bool)
  | arr (xs : JList)
  | obj (fields : JFields)

/-- An array of plain values. -/
inductive JList where
  | nil
  | cons (v : JVal) (tl : JList)

/-- The ordered fields of a plain object. -/
inductive JFields where
  | nil
  | cons (k : String) (v : JVal) (tl : JFields)

end

/-- Object field lookup, first match. -/
def jfLookup : JFields → String → Option JVal
  | .nil, _ => none
  | .cons k v rest, key => if k = key then some v else jfLookup rest key

/-- The `obj[key] = v` update: replace in place or append. -/
def jfSet : JFields → String → JVal → JFields
  | .nil, key, v => .cons key v .nil
  | .cons k w rest, key, v =>
    if k = key then .cons key v rest else .cons k w (jfSet rest key v)

/-- Build an object from a key/value list. -/
def jfOfList : List (String × JVal) → JFields
  | [] => .nil
  | (k, v) :: rest => .cons k v (jfOfList rest)

/-- JavaScript truthiness of a `JVal`. -/
def jTruthy : JVal → Bool
  | .num n => n != 0
  | .str s => s != ""
  | .boolv b => b
  | .arr _ => true
  | .obj _ => true

/-- The fields of an object value, empty otherwise (spreading a primitive
yields an empty object, and `Object.keys` of a primitive is empty). -/
def jFields : JVal → JFields
  | .obj o => o
  | _ => .nil

mutual

/-- The per-key value of `deepMerge`'s reduce step: a plain-object source
value recurses into the target entry (or an empty object), any other
value overrides. -/
def dmVal (target : JFields) (k : String) : JVal → JVal
  | .obj so =>
    .obj (dmGo (match jfLookup target k with
      | some (.obj t) => t
      | _ => .nil) (match jfLookup target k with
      | some (.obj t) => t
      | _ => .nil) so)
  | x => x

/-- The reduce of `deepMerge`: walk the source fields in order,
accumulating onto a copy of the target while looking keys up in the
original target, exactly as the JavaScript reduce does. -/
def dmGo (target : JFields) : JFields → JFields → JFields
  | acc, .nil => acc
  | acc, .cons k v rest => dmGo target (jfSet acc k (dmVal target k v)) rest

end

/-- The merge `deepMerge(target, source)` (the functional reduce version). -/
def deepMerge (target source : JFields) : JFields :=
  dmGo target target source

/-- The `formatOptions` defaults of `buildConfig`. -/
def defaultFormatOptions : JFields := jfOfList
  [("avif", .obj (jfOfList [("quality", .num 65), ("speed", .num 5)])),
   ("webp", .obj (jfOfList [("quality", .num 80), ("lossless", .boolv false)])),
   ("jpeg", .obj (jfOfList [("quality", .num 85), ("progressive", .boolv true)])),
   ("png", .obj (jfOfList [("compressionLevel", .num 8), ("palette", .boolv true)]))]

/-- The `placeholder` defaults of `buildConfig`. -/
def defaultPlaceholder : JFields := jfOfList
  [("width", .num 50), ("quality", .num 30), ("blur", .num 10)]

/-- The full defaults object of `buildConfig`. -/
def configDefaults : JFields := jfOfList
  [("widths", .arr (.cons (.num 320) (.cons (.num 640) (.cons (.num 960)
      (.cons (.num 1280) (.cons (.num 1920) .nil)))))),
   ("formats", .arr (.cons (.str "avif") (.cons (.str "webp")
      (.cons (.str "original") .nil)))),
   ("formatOptions", .obj defaultFormatOptions),
   ("htmlPattern", .str "**/*.html"),
   ("imgSelector", .str "img:not([data-no-responsive])"),
   ("outputDir", .str "assets/images/responsive"),
   ("outputPattern", .str "[filename]-[width]w-[hash].[format]"),
   ("skipLarger", .boolv true),
   ("lazy", .boolv true),
   ("dimensionAttributes", .boolv true),
   ("sizes", .str "(max-width: 768px) 100vw, 75vw"),
   ("concurrency", .num 5),
   ("generateMetadata", .boolv false),
   ("isProgressive", .boolv false),
   ("placeholder", .obj defaultPlaceholder),
   ("processUnusedImages", .boolv true),
   ("imagePattern", .str "**/*.{jpg,jpeg,png,gif,webp,avif}")]

/-- The shallow merge of the defaults with the options. -/
def shallowMerge : JFields → JFields → JFields
  | target, .nil => target
  | target, .cons k v rest => shallowMerge (jfSet target k v) rest

/-- The resolver `buildConfig(options)`: deep-merge the nested `formatOptions` and
`placeholder` groups onto their defaults when present, then shallow-merge
everything onto the defaults. -/
def buildConfig (options : JFields) : JFields :=
  let options :=
    match jfLookup options "formatOptions" with
    | some fo =>
      if jTruthy fo then
        jfSet options "formatOptions" (.obj (deepMerge defaultFormatOptions (jFields fo)))
      else options
    | none => options
  let options :=
    match jfLookup options "placeholder" with
    | some pl =>
      if jTruthy pl then
        jfSet options "placeholder" (.obj (deepMerge defaultPlaceholder (jFields pl)))
      else options
    | none => options
  shallowMerge configDefaults options

/-! ## Background/unreferenced-image classifier (src/index.js
`findUnprocessedImages`, Method 2: the Metalsmith files-object scan;
Method 1, the filesystem scan, is modeled by the `fromFs` parameter
carrying its results). -/

/-- A candidate background image. -/
structure BgCandidate where
  path : String
  buffer : Buffer
  source : String
deriving Repr, DecidableEq

/-- The raster extensions the classifier recognizes. -/
def imageExtensions : List String :=
  [".jpg", ".jpeg", ".png", ".gif", ".webp", ".avif"]

/-- Whether a path has a recognized raster-image extension. -/
def hasImageExt (p : String) : Bool :=
  imageExtensions.any (fun ext => strEndsWith (toLowerStr p) ext)

/-- ASCII decimal digit. -/
def isDigitC (c : Char) : Bool := '0' ≤ c && c ≤ '9'

/-- Lowercase hexadecimal digit. -/
def isHexC (c : Char) : Bool := isDigitC c || ('a' ≤ c && c ≤ 'f')

/-- After the `w` (scanning the reversed name): one or more digits then a
dash, the reversed image of `-\d+w`. -/
def revAfterW (l : List Char) : Bool :=
  let ds := l.takeWhile isDigitC
  !ds.isEmpty &&
    (match List.drop ds.length l with
     | '-' :: _ => true
     | _ => false)

/-- After the dot (scanning the reversed name): either `w` digits dash, or
hex digits, dash, `w`, digits, dash — the reversed image of
`-\d+w(-[a-f0-9]+)?`. -/
def revAfterDot (l : List Char) : Bool :=
  (match l with
   | 'w' :: rest => revAfterW rest
   | _ => false) ||
  (let hs := l.takeWhile isHexC
   !hs.isEmpty &&
     (match List.drop hs.length l with
      | '-' :: 'w' :: rest => revAfterW rest
      | _ => false))

/-- Strip a recognized extension from the reversed lowercased name. -/
def revStripExt (l : List Char) : Option (List Char) :=
  (["avif", "webp", "jpg", "jpeg", "png"].filterMap (fun e =>
    let er := e.toList.reverse
    if List.take er.length l = er then some (List.drop er.length l) else none)).head?

/-- The output naming convention test: the case-insensitive regular
expression `-\d+w(-[a-f0-9]+)?\.(avif|webp|jpg|jpeg|png)` anchored at the
end of the path. -/
def matchesVariantName (p : String) : Bool :=
  let l := (toLowerStr p).toList.reverse
  match revStripExt l with
  | none => false
  | some rest =>
    match rest with
    | '.' :: r2 => revAfterDot r2
    | _ => false

/-- The per-file body of the files-object scan: skip non-images, skip
anything that looks like an earlier run's responsive artifact, skip
already-processed paths, skip files the filesystem scan already found. -/
def bgScanStep (processedImagePaths : List String) (config : Config)
    (unprocessedImages : List BgCandidate) (filePath : String) (frec : FileRec) :
    List BgCandidate :=
  if !hasImageExt filePath then unprocessedImages
  else if strStartsWith filePath (config.outputDir ++ "/") ||
          strContains filePath "/responsive/" ||
          strContains filePath "responsive-images-manifest.json" ||
          matchesVariantName filePath then unprocessedImages
  else if processedImagePaths.contains filePath then unprocessedImages
  else if unprocessedImages.any (fun img =>
      strStartsWith filePath "images/" && img.path == strDrop filePath 7) then
    unprocessedImages
  else unprocessedImages ++ [⟨filePath, frec.contents, "files"⟩]

/-- The classifier `findUnprocessedImages(files, metalsmith, config, processedImagePaths,
debug)` with the filesystem scan's results supplied as `fromFs`. -/
def findUnprocessedImages (fromFs : List BgCandidate)
    (files : List (String × FileRec)) (processedImagePaths : List String)
    (config : Config) : List BgCandidate :=
  files.foldl (fun acc kv => bgScanStep processedImagePaths config acc kv.1 kv.2) fromFs

/-! ## Background transcode (src/index.js
`processBackgroundImageVariants`, `generateBackgroundVariantPath`) -/

/-- The hash-free output name: pattern substitution with the hash token
(and its preceding dash) removed. -/
def backgroundOutputName (originalPath : String) (width : Nat) (format : String)
    (config : Config) : String :=
  let parsed := pathParseNameExt originalPath
  let originalFormat := toLowerStr (strDrop parsed.2 1)
  let outputFormat := if format = "original" then originalFormat else format
  replaceFirst (replaceFirst (replaceFirst (replaceFirst (replaceFirst
    config.outputPattern "[filename]" parsed.1) "[width]" (toString width))
    "[format]" outputFormat) "-[hash]" "") "[hash]" ""

/-- The hash-free `generateBackgroundVariantPath(originalPath, width, format, config)`. -/
def generateBackgroundVariantPath (originalPath : String) (width : Nat)
    (format : String) (config : Config) : String :=
  pathJoin config.outputDir (backgroundOutputName originalPath width format config)

/-- The per-(size, format) closure of `processBackgroundImageVariants`. -/
def bgPairVariant (metadata : ImageMeta) (originalPath : String) (config : Config)
    (enc : Nat → String → Option Buffer) (width : Nat) (density : String)
    (format : String) : Option Variant :=
  if format = "original" && toLowerStr metadata.format == "webp" then none
  else
    let outputFormat := if format = "original" then toLowerStr metadata.format else format
    match enc width format with
    | none => none
    | some outputBuffer =>
      let rd := resizedDims metadata width true
      some { path := generateBackgroundVariantPath originalPath width outputFormat config
             buffer := outputBuffer
             width := rd.1
             height := rd.2
             format := outputFormat
             density := some density }

/-- The background transcoder `processBackgroundImageVariants(buffer, originalPath, debugFn,
config)`: a 1x variant at intrinsic width and a 2x variant at half width,
across the configured formats. -/
def processBackgroundImageVariants (dec : Buffer → Option ImageMeta)
    (enc : Nat → String → Option Buffer) (buffer : Buffer)
    (originalPath : String) (config : Config) : Option (List Variant) :=
  match dec buffer with
  | none => none
  | some metadata =>
    let sizes : List (Nat × String) :=
      [(metadata.width, "1x"), ((metadata.width + 1) / 2, "2x")]
    some (concatAll (sizes.map (fun sz =>
      config.formats.filterMap (fun format =>
        bgPairVariant metadata originalPath config enc sz.1 sz.2 format))))

/-- The background pass `processUnusedImages(files, metalsmith, processedImages, debug,
config)`: classify, then transcode each surviving candidate, persisting
variants and caching; per-image decode failures are dropped. -/
def processUnusedImages (dec : Buffer → Option ImageMeta)
    (enc : Nat → String → Option Buffer) (fromFs : List BgCandidate)
    (st : PState) (now : Nat) (config : Config) : PState :=
  let processedImagePaths := st.cache.map (fun kv => beforeColon kv.1)
  let allBackgroundImages := findUnprocessedImages fromFs st.files processedImagePaths config
  allBackgroundImages.foldl (fun s imageObj =>
    match processBackgroundImageVariants dec enc imageObj.buffer imageObj.path config with
    | none => s
    | some variants =>
      { s with
        files := variants.foldl
          (fun fs v => assocSet fs v.path { contents := v.buffer }) s.files
        cache := assocSet s.cache (imageObj.path ++ ":" ++ toString now) variants }) st

/-! ## HTML orchestration and plugin entry point (src/index.js
`optimizeImagesPlugin` / `optimizeImages`, src/processors/htmlProcessor.js
`processHtmlFile`)

The cheerio capability is abstracted by `parseDoc`, which yields the
attribute lists of the elements matching the configured selector; the
single-threaded cooperative scheduling is linearized in document order.
The completion callback `done` is recorded as the list of its invocations
(`none` for `done()`, `some e` for `done(err)`). -/

/-- The document step `processHtmlFile` restricted to its state effect: process each
matched image element in order. -/
def processHtmlFile (dec : Buffer → Option ImageMeta)
    (enc : Nat → String → Option Buffer) (hashFn : Buffer → String)
    (fsFiles : List (String × FileRec))
    (parseDoc : Buffer → List (List (String × String)))
    (contents : Buffer) (st : PState) (now : Nat) (config : Config) : PState :=
  (parseDoc contents).foldl
    (fun s attribs => (processImage dec enc hashFn fsFiles attribs s now config).1) st

/-- The host accessor surface the entry point touches, with the two
fallible top-level operations as `Except`. -/
structure Host where
  destinationRes : Except String String
  mkdirRes : Except String Unit
  matchFn : String → String → Bool

/-- The metadata step: serialize the manifest (serialization supplied as a
capability) into the files object. -/
def genMetadataStep (serializeManifest : List (String × List Variant) → Buffer)
    (st : PState) (config : Config) : PState :=
  { st with
    files := assocSet st.files
      (pathJoin config.outputDir "responsive-images-manifest.json")
      { contents := serializeManifest st.cache } }

/-- The entry point `optimizeImages(files, metalsmith, done)`: the whole plugin pass.  The
first component is the list of completion-callback invocations. -/
def optimizeImages (host : Host) (dec : Buffer → Option ImageMeta)
    (enc : Nat → String → Option Buffer) (hashFn : Buffer → String)
    (parseDoc : Buffer → List (List (String × String)))
    (fsFiles : List (String × FileRec)) (fromFs : List BgCandidate)
    (serializeManifest : List (String × List Variant) → Buffer) (now : Nat)
    (files : List (String × FileRec)) (config : Config) :
    List (Option String) × PState :=
  let st0 : PState := ⟨files, [], 0⟩
  match host.destinationRes with
  | .error e => ([some e], st0)
  | .ok _dest =>
    match host.mkdirRes with
    | .error e => ([some e], st0)
    | .ok _ =>
      let htmlFiles := (files.map (fun kv => kv.1)).filter (fun f =>
        host.matchFn config.htmlPattern f && strEndsWith f ".html")
      if htmlFiles.isEmpty then ([none], st0)
      else
        let st1 := htmlFiles.foldl (fun s name =>
          match assocLookup s.files name with
          | some frec => processHtmlFile dec enc hashFn fsFiles parseDoc frec.contents s now config
          | none => s) st0
        let st2 :=
          if config.processUnusedImages then processUnusedImages dec enc fromFs st1 now config
          else st1
        let st3 :=
          if config.generateMetadata then genMetadataStep serializeManifest st2 config
          else st2
        ([none], st3)

/-! ## Concrete scenario material shared by the theorems -/

/-- A configuration equal to the defaults except for widths/formats. -/
def mkConfig (widths : List Nat) (formats : List String) : Config :=
  { widths := widths
    formats := formats
    htmlPattern := "**/*.html"
    outputDir := "assets/images/responsive"
    outputPattern := "[filename]-[width]w-[hash].[format]"
    skipLarger := true
    lazy := true
    dimensionAttributes := true
    sizes := "(max-width: 768px) 100vw, 75vw"
    concurrency := 5
    generateMetadata := false
    isProgressive := false
    processUnusedImages := true }

/-- Decoder for a 1920×1080 JPEG source. -/
def decJpeg1920 : Buffer → Option ImageMeta := fun _ => some ⟨1920, 1080, "jpeg"⟩

/-- Decoder for a 200×100 JPEG source. -/
def decJpeg200 : Buffer → Option ImageMeta := fun _ => some ⟨200, 100, "jpeg"⟩

/-- Decoder for an 800×600 WEBP source. -/
def decWebp800 : Buffer → Option ImageMeta := fun _ => some ⟨800, 600, "webp"⟩

/-- Encoder that succeeds on every pair. -/
def encOk : Nat → String → Option Buffer := fun w _ => some [w % 256]

/-- Constant content hash. -/
def hashConst : Buffer → String := fun _ => "abc12345"

/-- The elements of a picture that are `source` children with the given
type attribute. -/
def sourcesTyped (n : Node) (ty : String) : List Elem :=
  n.children.filter (fun c => c.tag == "source" && assocLookup c.attribs "type" == some ty)

/-- C1 scenario configuration: widths 320/640, formats webp/original. -/
def c1Config : Config := mkConfig [320, 640] ["webp", "original"]

/-- C1 scenario: attributes of the original img element. -/
def c1Attribs : List (String × String) := [("src", "/images/hero.jpg"), ("alt", "Hero")]

/-- C1 scenario: the variants produced for the 1920×1080 source. -/
def c1Variants : List Variant :=
  (processImageToVariants decJpeg1920 encOk hashConst [7] "images/hero.jpg" c1Config).getD []

/-- C1 scenario: the replacement picture element. -/
def c1Picture : Node :=
  (replacePictureElement c1Attribs c1Variants c1Config).getD (Node.mk "" [] [])

/-- C1: one document referencing one 1920×1080 source, widths [320,640],
formats [webp, original]: exactly four variants (320/640 × webp/jpeg),
and the img is replaced by a picture with exactly one
`source type="image/webp"` whose srcset lists the 320w then the 640w
variant, followed by a fallback img whose width/height come from the
640-wide variant. -/
theorem c1_scenario_four_variants_and_picture :
    (processImageToVariants decJpeg1920 encOk hashConst [7] "images/hero.jpg" c1Config).isSome = true ∧
    c1Variants.length = 4 ∧
    c1Variants.map (fun v => (v.width, v.format)) =
      [(320, "webp"), (320, "jpeg"), (640, "webp"), (640, "jpeg")] ∧
    (replacePictureElement c1Attribs c1Variants c1Config).isSome = true ∧
    c1Picture.tag = "picture" ∧
    (sourcesTyped c1Picture "image/webp").length = 1 ∧
    (sourcesTyped c1Picture "image/webp").head? = some
      (Elem.mk "source"
        [("type", "image/webp"),
         ("srcset", "/assets/images/responsive/hero-320w-abc12345.webp 320w, " ++
                    "/assets/images/responsive/hero-640w-abc12345.webp 640w"),
         ("sizes", "(max-width: 768px) 100vw, 75vw")]) ∧
    c1Picture.children.getLast? = some
      (Elem.mk "img"
        [("src", "/images/hero.jpg"), ("alt", "Hero"), ("loading", "lazy"),
         ("width", "640"), ("height", "360")]) ∧
    (∀ v ∈ c1Variants, v.width = 640 →
      assocLookup (c1Picture.children.getLastD (Elem.mk "" [])).attribs "width" =
          some (toString v.width) ∧
        assocLookup (c1Picture.children.getLastD (Elem.mk "" [])).attribs "height" =
          some (toString v.height)) := by
  refine ⟨rfl, rfl, rfl, rfl, rfl, rfl, rfl, rfl, ?_⟩
  decide

/-- C5 scenario: the user options `{formatOptions: {jpeg: {quality: 95}}}`. -/
def c5Options : JFields :=
  jfOfList [("formatOptions",
    JVal.obj (jfOfList [("jpeg", JVal.obj (jfOfList [("quality", JVal.num 95)]))]))]

/-- C5 scenario: the configuration resolved from the options. -/
def c5Resolved : JFields := buildConfig c5Options

/-- C5 scenario: the resolved `formatOptions` group. -/
def c5FO : JFields :=
  jFields ((jfLookup c5Resolved "formatOptions").getD (JVal.obj .nil))

/-- C5 scenario: the resolved `jpeg` group. -/
def c5Jpeg : JFields :=
  jFields ((jfLookup c5FO "jpeg").getD (JVal.obj .nil))

/-- C5: resolving `{formatOptions: {jpeg: {quality: 95}}}` keeps the
default avif/webp/png entries unchanged, sets jpeg.quality to 95, and
keeps the default jpeg sibling `progressive` untouched. -/
theorem c5_format_options_deep_merge :
    jfLookup c5FO "avif" = jfLookup defaultFormatOptions "avif" ∧
    jfLookup c5FO "webp" = jfLookup defaultFormatOptions "webp" ∧
    jfLookup c5FO "png" = jfLookup defaultFormatOptions "png" ∧
    jfLookup c5FO "avif" =
      some (JVal.obj (jfOfList [("quality", JVal.num 65), ("speed", JVal.num 5)])) ∧
    jfLookup c5FO "webp" =
      some (JVal.obj (jfOfList [("quality", JVal.num 80), ("lossless", JVal.boolv false)])) ∧
    jfLookup c5FO "png" =
      some (JVal.obj (jfOfList [("compressionLevel", JVal.num 8), ("palette", JVal.boolv true)])) ∧
    jfLookup c5Jpeg "quality" = some (JVal.num 95) ∧
    jfLookup c5Jpeg "progressive" = some (JVal.boolv true) :=
  ⟨rfl, rfl, rfl, rfl, rfl, rfl, rfl, rfl⟩

/-- C10 scenario: a files object that does contain the image at the
path that merely begins with the four letters http. -/
def c10St : PState :=
  ⟨[("httpdocs/pic.jpg", { contents := [1, 2, 3], mtime := some 5 })], [], 0⟩

/-- C10: the external-URL exclusion is a plain string-prefix test: every
image element whose src begins with the four characters http — including
non-URL relative paths such as `httpdocs/pic.jpg` — is returned from
unprocessed, with the state (so no generated variant) and the element
untouched, for any state, configuration and codec oracles. -/
theorem c10_http_prefix_is_plain_string_test (dec : Buffer → Option ImageMeta)
    (enc : Nat → String → Option Buffer) (hashFn : Buffer → String)
    (fsFiles : List (String × FileRec)) (attribs : List (String × String))
    (st : PState) (now : Nat) (cfg : Config) (src : String)
    (hsrc : assocLookup attribs "src" = some src)
    (hpre : strStartsWith src "http" = true) :
    processImage dec enc hashFn fsFiles attribs st now cfg = (st, none) := by
  unfold processImage
  rw [hsrc]
  simp [hpre]

theorem c10_http_prefix_is_plain_string_test_witness :
    processImage decJpeg1920 encOk hashConst []
      [("src", "httpdocs/pic.jpg"), ("alt", "x")] c10St 111 c1Config = (c10St, none) :=
  c10_http_prefix_is_plain_string_test decJpeg1920 encOk hashConst []
    [("src", "httpdocs/pic.jpg"), ("alt", "x")] c10St 111 c1Config "httpdocs/pic.jpg"
    rfl (by decide)

/-! ## Upscale guard (C3) -/

theorem pairVariant_width (metadata : ImageMeta) (hash originalPath : String)
    (config : Config) (enc : Nat → String → Option Buffer) (w : Nat) (f : String)
    (v : Variant) (h : pairVariant metadata hash originalPath config enc w f = some v) :
    v.width = w := by
  unfold pairVariant at h
  split at h
  · simp at h
  · split at h
    · simp at h
    · simp only [Option.some.injEq] at h
      subst h
      rfl

/-- C3 scenario configuration: widths 100/300/500 against a 200px source. -/
def c3Config : Config := mkConfig [100, 300, 500] ["webp", "original"]

/-- C3: with upscaling disallowed only configured widths at most the
intrinsic width yield variants; an empty filtered width set yields the
empty variant list, not an error; a 200px source with widths
[100, 300, 500] yields only 100-wide variants. -/
theorem c3_upscale_guard (dec : Buffer → Option ImageMeta)
    (enc : Nat → String → Option Buffer) (hashFn : Buffer → String)
    (buffer : Buffer) (p : String) (cfg : Config) (meta : ImageMeta)
    (hskip : cfg.skipLarger = true) (hdec : dec buffer = some meta) :
    (∀ v ∈ (processImageToVariants dec enc hashFn buffer p cfg).getD [],
        v.width ≤ meta.width ∧ v.width ∈ cfg.widths) ∧
    (cfg.widths.filter (fun w => w ≤ meta.width) = [] →
        processImageToVariants dec enc hashFn buffer p cfg = some []) ∧
    ((processImageToVariants decJpeg200 encOk hashConst [3] "photo.jpg" c3Config).getD
        []).map Variant.width = [100, 100] := by
  refine ⟨?_, ?_, rfl⟩
  · intro v hv
    rw [processImageToVariants_eq_rows dec enc hashFn buffer p cfg meta hdec] at hv
    simp only [Option.getD_some] at hv
    rw [mem_concatAll] at hv
    obtain ⟨l, hl, hvl⟩ := hv
    rw [List.mem_map] at hl
    obtain ⟨w, hw, rfl⟩ := hl
    rw [List.mem_filterMap] at hvl
    obtain ⟨f, _, hpf⟩ := hvl
    rw [pairVariant_width _ _ _ _ _ _ _ _ hpf]
    unfold targetWidthsOf at hw
    rw [hskip] at hw
    simp only [if_true, List.mem_filter, decide_eq_true_eq] at hw
    exact ⟨hw.2, hw.1⟩
  · intro hf
    unfold processImageToVariants
    rw [hdec]
    unfold targetWidthsOf
    rw [hskip]
    simp [hf]

theorem c3_upscale_guard_witness :
    (∀ v ∈ (processImageToVariants decJpeg200 encOk hashConst [3] "photo.jpg"
        c3Config).getD [],
        v.width ≤ (ImageMeta.mk 200 100 "jpeg").width ∧ v.width ∈ c3Config.widths) ∧
    (c3Config.widths.filter (fun w => w ≤ (ImageMeta.mk 200 100 "jpeg").width) = [] →
        processImageToVariants decJpeg200 encOk hashConst [3] "photo.jpg" c3Config =
          some []) ∧
    ((processImageToVariants decJpeg200 encOk hashConst [3] "photo.jpg" c3Config).getD
        []).map Variant.width = [100, 100] :=
  c3_upscale_guard decJpeg200 encOk hashConst [3] "photo.jpg" c3Config
    (ImageMeta.mk 200 100 "jpeg") rfl rfl

/-! ## External and data URL exclusion (C7) -/

/-- C7: an image element whose src is absent, an absolute http(s) URL, or
a data URI is skipped entirely: the state (files, cache, transcode count)
is unchanged and the element is not replaced. -/
theorem c7_external_and_data_sources_skipped (dec : Buffer → Option ImageMeta)
    (enc : Nat → String → Option Buffer) (hashFn : Buffer → String)
    (fsFiles : List (String × FileRec)) (attribs : List (String × String))
    (st : PState) (now : Nat) (cfg : Config)
    (h : assocLookup attribs "src" = none ∨
         ∃ src, assocLookup attribs "src" = some src ∧
           (strStartsWith src "http://" = true ∨ strStartsWith src "https://" = true ∨
            strStartsWith src "data:" = true)) :
    processImage dec enc hashFn fsFiles attribs st now cfg = (st, none) := by
  unfold processImage
  rcases h with h | ⟨src, hsrc, hpre⟩
  · rw [h]
  · rw [hsrc]
    have hh : strStartsWith src "http" = true ∨ strStartsWith src "data:" = true := by
      rcases hpre with h1 | h1 | h1
      · exact Or.inl (strStartsWith_trans h1 (by decide))
      · exact Or.inl (strStartsWith_trans h1 (by decide))
      · exact Or.inr h1
    rcases hh with h1 | h1 <;> simp [h1]

theorem c7_external_and_data_sources_skipped_witness :
    processImage decJpeg1920 encOk hashConst []
      [("src", "https://cdn.example.com/pic.jpg")] (PState.mk [] [] 0) 7 c1Config =
      (PState.mk [] [] 0, none) :=
  c7_external_and_data_sources_skipped decJpeg1920 encOk hashConst [] _ _ 7 c1Config
    (Or.inr ⟨"https://cdn.example.com/pic.jpg", rfl, Or.inr (Or.inl (by decide))⟩)

/-! ## WEBP-source original-format skip (C8) -/

theorem filterMap_filter_of_none {α β : Type} (f : α → Option β) (p : α → Bool)
    (h : ∀ a, p a = false → f a = none) (l : List α) :
    (l.filter p).filterMap f = l.filterMap f := by
  induction l with
  | nil => rfl
  | cons a t ih =>
    cases hp : p a
    · simp [List.filter_cons, hp, List.filterMap_cons, h a hp, ih]
    · simp [List.filter_cons, hp, List.filterMap_cons, ih]

theorem pairVariant_formats_agnostic (metadata : ImageMeta) (hash originalPath : String)
    (cfg : Config) (fmts : List String) (enc : Nat → String → Option Buffer)
    (w : Nat) (f : String) :
    pairVariant metadata hash originalPath { cfg with formats := fmts } enc w f =
      pairVariant metadata hash originalPath cfg enc w f := by
  cases cfg
  rfl

theorem bgPairVariant_formats_agnostic (metadata : ImageMeta) (originalPath : String)
    (cfg : Config) (fmts : List String) (enc : Nat → String → Option Buffer)
    (w : Nat) (d : String) (f : String) :
    bgPairVariant metadata originalPath { cfg with formats := fmts } enc w d f =
      bgPairVariant metadata originalPath cfg enc w d f := by
  cases cfg
  rfl

theorem targetWidthsOf_formats_agnostic (cfg : Config) (fmts : List String)
    (meta : ImageMeta) :
    targetWidthsOf { cfg with formats := fmts } meta = targetWidthsOf cfg meta := by
  cases cfg
  rfl

/-- C8: when the source's intrinsic format is WEBP, the (width, original)
pairs are skipped: both transcoders produce exactly what they would with
the `original` sentinel removed from the configured format list, so no
re-encoded original-format variant appears while all other formats are
produced normally. -/
theorem c8_webp_source_original_pairs_skipped (dec : Buffer → Option ImageMeta)
    (enc : Nat → String → Option Buffer) (hashFn : Buffer → String)
    (buffer : Buffer) (p : String) (cfg : Config) (meta : ImageMeta)
    (hdec : dec buffer = some meta) (hfmt : toLowerStr meta.format = "webp") :
    processImageToVariants dec enc hashFn buffer p cfg =
      processImageToVariants dec enc hashFn buffer p
        { cfg with formats := cfg.formats.filter (fun f => f != "original") } ∧
    processBackgroundImageVariants dec enc buffer p cfg =
      processBackgroundImageVariants dec enc buffer p
        { cfg with formats := cfg.formats.filter (fun f => f != "original") } := by
  have hnone : ∀ w f, (f != "original") = false →
      pairVariant meta (hashFn buffer) p cfg enc w f = none := by
    intro w f hf
    have hf' : f = "original" := by simpa using hf
    subst hf'
    unfold pairVariant
    simp [hfmt]
  have hbgnone : ∀ w d f, (f != "original") = false →
      bgPairVariant meta p cfg enc w d f = none := by
    intro w d f hf
    have hf' : f = "original" := by simpa using hf
    subst hf'
    unfold bgPairVariant
    simp [hfmt]
  constructor
  · rw [processImageToVariants_eq_rows dec enc hashFn buffer p cfg meta hdec,
        processImageToVariants_eq_rows dec enc hashFn buffer p _ meta hdec]
    rw [targetWidthsOf_formats_agnostic]
    refine congrArg some (congrArg concatAll (List.map_congr_left (fun w _ => ?_)))
    rw [show ({ cfg with formats := cfg.formats.filter (fun f => f != "original") } :
        Config).formats = cfg.formats.filter (fun f => f != "original") from rfl]
    simp only [pairVariant_formats_agnostic]
    exact (filterMap_filter_of_none _ _ (fun f hf => hnone w f hf) cfg.formats).symm
  · unfold processBackgroundImageVariants
    rw [hdec]
    refine congrArg some (congrArg concatAll (List.map_congr_left (fun sz _ => ?_)))
    rw [show ({ cfg with formats := cfg.formats.filter (fun f => f != "original") } :
        Config).formats = cfg.formats.filter (fun f => f != "original") from rfl]
    simp only [bgPairVariant_formats_agnostic]
    exact (filterMap_filter_of_none _ _ (fun f hf => hbgnone sz.1 sz.2 f hf) cfg.formats).symm

theorem c8_webp_source_original_pairs_skipped_witness :
    processImageToVariants decWebp800 encOk hashConst [2] "art/banner.webp" c1Config =
      processImageToVariants decWebp800 encOk hashConst [2] "art/banner.webp"
        { c1Config with formats := c1Config.formats.filter (fun f => f != "original") } ∧
    processBackgroundImageVariants decWebp800 encOk [2] "art/banner.webp" c1Config =
      processBackgroundImageVariants decWebp800 encOk [2] "art/banner.webp"
        { c1Config with formats := c1Config.formats.filter (fun f => f != "original") } :=
  c8_webp_source_original_pairs_skipped decWebp800 encOk hashConst [2] "art/banner.webp"
    c1Config (ImageMeta.mk 800 600 "webp") rfl rfl

/-! ## Cache reuse (C2) -/

theorem assocLookup_foldl_set_ne (vs : List Variant) (fs : List (String × FileRec))
    (k : String) (h : ∀ v ∈ vs, v.path ≠ k) :
    assocLookup (vs.foldl (fun fs v => assocSet fs v.path { contents := v.buffer }) fs) k =
      assocLookup fs k := by
  induction vs generalizing fs with
  | nil => rfl
  | cons v t ih =>
    rw [List.foldl_cons, ih _ (fun u hu => h u (by simp [hu]))]
    exact assocLookup_assocSet_ne _ _ _ _ (h v (by simp))

/-- C2: processing the same (path, mtime) twice within one build invokes
the transcoder exactly once; the second processing hits the cache and
passes the identical variants from the first transcoding to the
rewriter, leaving the state untouched. -/
theorem c2_cache_reuse (dec : Buffer → Option ImageMeta)
    (enc : Nat → String → Option Buffer) (hashFn : Buffer → String)
    (fsFiles : List (String × FileRec)) (attribs : List (String × String))
    (st0 : PState) (now1 now2 : Nat) (cfg : Config) (src ns : String)
    (frec : FileRec) (m : Nat) (vs : List Variant)
    (hsrc : assocLookup attribs "src" = some src)
    (hne : src ≠ "") (hh : strStartsWith src "http" = false)
    (hd : strStartsWith src "data:" = false)
    (hns : normalizeSrc src = ns)
    (hf : assocLookup st0.files ns = some frec)
    (hm : frec.mtime = some m) (hm0 : m ≠ 0)
    (hc : assocLookup st0.cache (ns ++ ":" ++ toString m) = none)
    (hv : processImageToVariants dec enc hashFn frec.contents ns cfg = some vs)
    (hp : ∀ v ∈ vs, v.path ≠ ns) :
    ∃ st1,
      processImage dec enc hashFn fsFiles attribs st0 now1 cfg =
        (st1, some (vs, replacePictureElement attribs vs cfg)) ∧
      processImage dec enc hashFn fsFiles attribs st1 now2 cfg =
        (st1, some (vs, replacePictureElement attribs vs cfg)) ∧
      st1.transcodeCount = st0.transcodeCount + 1 := by
  have hmt : fileMtimeOf frec now1 = m := by
    unfold fileMtimeOf
    rw [hm]
    simp [hm0]
  have hmt2 : fileMtimeOf frec now2 = m := by
    unfold fileMtimeOf
    rw [hm]
    simp [hm0]
  have hguard : (decide (src = "") || strStartsWith src "http" ||
      strStartsWith src "data:") = false := by
    simp [hne, hh, hd]
  refine ⟨⟨vs.foldl (fun fs v => assocSet fs v.path { contents := v.buffer }) st0.files,
          assocSet st0.cache (ns ++ ":" ++ toString m) vs,
          st0.transcodeCount + 1⟩, ?_, ?_, rfl⟩
  · unfold processImage
    rw [hsrc]
    simp only [hguard, Bool.false_eq_true, if_false, hns, hf, hmt, hc, hv]
  · unfold processImage
    rw [hsrc]
    have hf1 : assocLookup
        (vs.foldl (fun fs v => assocSet fs v.path { contents := v.buffer }) st0.files) ns =
        some frec := by
      rw [assocLookup_foldl_set_ne vs st0.files ns hp]
      exact hf
    simp only [hguard, Bool.false_eq_true, if_false, hns, hf1, hmt2,
      assocLookup_assocSet_self]

theorem c2_cache_reuse_witness :
    ∃ st1,
      processImage decJpeg1920 encOk hashConst []
        [("src", "/images/hero.jpg"), ("alt", "Hero")]
        (PState.mk [("images/hero.jpg", FileRec.mk [7] (some 42))] [] 0) 1001 c1Config =
        (st1, some ((processImageToVariants decJpeg1920 encOk hashConst [7]
            "images/hero.jpg" c1Config).getD [],
          replacePictureElement [("src", "/images/hero.jpg"), ("alt", "Hero")]
            ((processImageToVariants decJpeg1920 encOk hashConst [7]
              "images/hero.jpg" c1Config).getD []) c1Config)) ∧
      processImage decJpeg1920 encOk hashConst []
        [("src", "/images/hero.jpg"), ("alt", "Hero")] st1 1002 c1Config =
        (st1, some ((processImageToVariants decJpeg1920 encOk hashConst [7]
            "images/hero.jpg" c1Config).getD [],
          replacePictureElement [("src", "/images/hero.jpg"), ("alt", "Hero")]
            ((processImageToVariants decJpeg1920 encOk hashConst [7]
              "images/hero.jpg" c1Config).getD []) c1Config)) ∧
      st1.transcodeCount = (PState.mk [("images/hero.jpg", FileRec.mk [7] (some 42))]
          [] 0).transcodeCount + 1 :=
  c2_cache_reuse decJpeg1920 encOk hashConst []
    [("src", "/images/hero.jpg"), ("alt", "Hero")]
    (PState.mk [("images/hero.jpg", FileRec.mk [7] (some 42))] [] 0) 1001 1002 c1Config
    "/images/hero.jpg" "images/hero.jpg" (FileRec.mk [7] (some 42)) 42
    ((processImageToVariants decJpeg1920 encOk hashConst [7]
      "images/hero.jpg" c1Config).getD [])
    rfl (by decide) (by decide) (by decide) rfl rfl rfl (by decide) rfl rfl
    (by decide)

/-! ## Background classifier exclusions (C6) -/

theorem bgScanStep_mem (processed : List String) (cfg : Config)
    (acc : List BgCandidate) (fp : String) (frec : FileRec) (c : BgCandidate)
    (hc : c ∈ bgScanStep processed cfg acc fp frec) :
    c ∈ acc ∨
      (processed.contains c.path = false ∧
       strStartsWith c.path (cfg.outputDir ++ "/") = false ∧
       strContains c.path "/responsive/" = false ∧
       matchesVariantName c.path = false) := by
  unfold bgScanStep at hc
  split at hc
  · exact Or.inl hc
  split at hc
  · exact Or.inl hc
  split at hc
  · exact Or.inl hc
  split at hc
  · exact Or.inl hc
  rw [List.mem_append] at hc
  rcases hc with hc | hc
  · exact Or.inl hc
  · rename_i h1 h2 h3 h4
    simp only [List.mem_singleton] at hc
    subst hc
    simp only [Bool.not_eq_true, Bool.or_eq_false_iff] at h2 h3
    exact Or.inr ⟨h3, h2.1.1.1, h2.1.1.2, h2.2⟩

theorem foldl_bgScan_mem (files : List (String × FileRec)) (processed : List String)
    (cfg : Config) :
    ∀ (init : List BgCandidate) (c : BgCandidate),
      c ∈ files.foldl (fun acc kv => bgScanStep processed cfg acc kv.1 kv.2) init →
      c ∈ init ∨
        (processed.contains c.path = false ∧
         strStartsWith c.path (cfg.outputDir ++ "/") = false ∧
         strContains c.path "/responsive/" = false ∧
         matchesVariantName c.path = false) := by
  induction files with
  | nil => exact fun init c hc => Or.inl hc
  | cons kv rest ih =>
    intro init c hc
    rw [List.foldl_cons] at hc
    rcases ih _ c hc with h | h
    · exact bgScanStep_mem _ _ _ _ _ _ h
    · exact Or.inr h

theorem strStartsWith_pathJoin (d n : String) (hd : d ≠ "") (hn : n ≠ "") :
    strStartsWith (pathJoin d n) (d ++ "/") = true := by
  unfold pathJoin
  rw [if_neg hd, if_neg hn]
  unfold strStartsWith
  have hsplit : (d ++ "/" ++ n).toList = (d ++ "/").toList ++ n.toList := by
    simp [String.toList, String.data_append]
  rw [hsplit]
  exact isPrefixOf_append _ _

/-- C6: every fresh candidate the background classifier selects from the
files object is outside the processed set, outside the configured output
directory, and does not match the output naming convention; in
particular no hash-free background output path from an earlier pass is
ever selected again. -/
theorem c6_classifier_never_reselects_outputs (fromFs : List BgCandidate)
    (files : List (String × FileRec)) (processed : List String) (cfg : Config)
    (origPath : String) (w : Nat) (fmt : String) (c : BgCandidate)
    (hd : cfg.outputDir ≠ "") (hn : backgroundOutputName origPath w fmt cfg ≠ "")
    (hc : c ∈ findUnprocessedImages fromFs files processed cfg)
    (hcf : c ∉ fromFs) :
    processed.contains c.path = false ∧
    strStartsWith c.path (cfg.outputDir ++ "/") = false ∧
    matchesVariantName c.path = false ∧
    c.path ≠ generateBackgroundVariantPath origPath w fmt cfg := by
  rcases foldl_bgScan_mem files processed cfg fromFs c hc with h | h
  · exact absurd h hcf
  · refine ⟨h.1, h.2.1, h.2.2.2, ?_⟩
    intro he
    have hpre := strStartsWith_pathJoin cfg.outputDir
      (backgroundOutputName origPath w fmt cfg) hd hn
    have hfalse := h.2.1
    rw [he] at hfalse
    unfold generateBackgroundVariantPath at hfalse
    rw [hpre] at hfalse
    exact Bool.noConfusion hfalse

/-- C6 witness scenario: one unreferenced image in the files object. -/
def c6Candidate : BgCandidate := ⟨"assets/images/header1.jpg", [9], "files"⟩

theorem c6_classifier_never_reselects_outputs_witness :
    ([] : List String).contains c6Candidate.path = false ∧
    strStartsWith c6Candidate.path (c1Config.outputDir ++ "/") = false ∧
    matchesVariantName c6Candidate.path = false ∧
    c6Candidate.path ≠
      generateBackgroundVariantPath "assets/images/header1.jpg" 1000 "webp" c1Config :=
  c6_classifier_never_reselects_outputs []
    [("assets/images/header1.jpg", FileRec.mk [9] none)] [] c1Config
    "assets/images/header1.jpg" 1000 "webp" c6Candidate
    (by decide) (by decide) (by decide) (by decide)

/-! ## Completion callback (C9) -/

/-- C9: the plugin entry point reports completion exactly once, with an
error exactly when a top-level accessor/filesystem step failed; with the
accessors healthy the callback receives no error regardless of the codec
oracles, so per-image and per-variant failures never reach the
callback. -/
theorem c9_callback_exactly_once (host : Host) (dec : Buffer → Option ImageMeta)
    (enc : Nat → String → Option Buffer) (hashFn : Buffer → String)
    (parseDoc : Buffer → List (List (String × String)))
    (fsFiles : List (String × FileRec)) (fromFs : List BgCandidate)
    (serializeManifest : List (String × List Variant) → Buffer) (now : Nat)
    (files : List (String × FileRec)) (cfg : Config) :
    (optimizeImages host dec enc hashFn parseDoc fsFiles fromFs serializeManifest now
        files cfg).1.length = 1 ∧
    (match host.destinationRes, host.mkdirRes with
     | .error e, _ =>
        (optimizeImages host dec enc hashFn parseDoc fsFiles fromFs serializeManifest now
          files cfg).1 = [some e]
     | .ok _, .error e =>
        (optimizeImages host dec enc hashFn parseDoc fsFiles fromFs serializeManifest now
          files cfg).1 = [some e]
     | .ok _, .ok _ =>
        (optimizeImages host dec enc hashFn parseDoc fsFiles fromFs serializeManifest now
          files cfg).1 = [none]) := by
  unfold optimizeImages
  rcases hdst : host.destinationRes with e | dest
  · exact ⟨rfl, rfl⟩
  · rcases hmk : host.mkdirRes with e | u
    · exact ⟨rfl, rfl⟩
    · cases hempty : ((files.map (fun kv => kv.1)).filter (fun f =>
          host.matchFn cfg.htmlPattern f && strEndsWith f ".html")).isEmpty
      · simp only [hempty, Bool.false_eq_true, if_false]
        constructor <;> first | rfl | trivial
      · simp only [hempty, if_true]
        constructor <;> first | rfl | trivial

/-! ## Per-pair encode failure isolation (C4) -/

theorem concatAll_append {α : Type} (a b : List (List α)) :
    concatAll (a ++ b) = concatAll a ++ concatAll b := by
  induction a with
  | nil => rfl
  | cons x xs ih => simp [concatAll, ih]

/-- C4: a failure while encoding one (width, format) pair only omits that
pair's variant.  Comparing a run whose encoder fails exactly at
(w0, f0) with the counterfactual run whose encoder succeeds there and
agrees everywhere else: both runs complete (no error propagates), the
failing run is one variant short, every variant of the failing run also
appears in the counterfactual run, and the only variant present solely in
the counterfactual run is the (w0, f0) one. -/
theorem c4_per_pair_failure_isolation (dec : Buffer → Option ImageMeta)
    (enc enc2 : Nat → String → Option Buffer) (hashFn : Buffer → String)
    (buffer : Buffer) (p : String) (cfg : Config) (meta : ImageMeta)
    (w0 : Nat) (f0 : String) (b0 : Buffer)
    (hdec : dec buffer = some meta)
    (hw : countOcc w0 (targetWidthsOf cfg meta) = 1)
    (hf : countOcc f0 cfg.formats = 1)
    (hns : (decide (f0 = "original") && (toLowerStr meta.format == "webp")) = false)
    (h1 : enc w0 f0 = none)
    (h2 : enc2 w0 f0 = some b0)
    (hagree : ∀ w f, ¬(w = w0 ∧ f = f0) → enc2 w f = enc w f) :
    ∃ vs vs2,
      processImageToVariants dec enc hashFn buffer p cfg = some vs ∧
      processImageToVariants dec enc2 hashFn buffer p cfg = some vs2 ∧
      vs2.length = vs.length + 1 ∧
      (∀ v ∈ vs, v ∈ vs2) ∧
      (∀ v ∈ vs2, v ∉ vs →
        pairVariant meta (hashFn buffer) p cfg enc2 w0 f0 = some v) := by
  have hcond : ¬((decide (f0 = "original") && (toLowerStr meta.format == "webp")) = true) := by
    simp [hns]
  have hpv_agree : ∀ w f, ¬(w = w0 ∧ f = f0) →
      pairVariant meta (hashFn buffer) p cfg enc2 w f =
        pairVariant meta (hashFn buffer) p cfg enc w f := by
    intro w f hwf
    unfold pairVariant
    rw [hagree w f hwf]
  have hpv1 : pairVariant meta (hashFn buffer) p cfg enc w0 f0 = none := by
    unfold pairVariant
    rw [h1]
    split <;> rfl
  obtain ⟨v0, hv0⟩ : ∃ v0,
      pairVariant meta (hashFn buffer) p cfg enc2 w0 f0 = some v0 := by
    unfold pairVariant
    rw [if_neg hcond, h2]
    exact ⟨_, rfl⟩
  obtain ⟨t1, t2, hT, hT1, hT2⟩ := countOcc_eq_one_decomp hw
  obtain ⟨l1, l2, hF, hF1, hF2⟩ := countOcc_eq_one_decomp hf
  have hrow_ne : ∀ w, w ≠ w0 →
      cfg.formats.filterMap (fun f => pairVariant meta (hashFn buffer) p cfg enc2 w f) =
        cfg.formats.filterMap (fun f => pairVariant meta (hashFn buffer) p cfg enc w f) := by
    intro w hwne
    exact List.filterMap_congr (fun f _ => hpv_agree w f (fun hc => hwne hc.1))
  have hl1 : l1.filterMap (fun f => pairVariant meta (hashFn buffer) p cfg enc2 w0 f) =
      l1.filterMap (fun f => pairVariant meta (hashFn buffer) p cfg enc w0 f) :=
    List.filterMap_congr (fun f hfm =>
      hpv_agree w0 f (fun hc => countOcc_zero_not_mem hF1 (hc.2 ▸ hfm)))
  have hl2 : l2.filterMap (fun f => pairVariant meta (hashFn buffer) p cfg enc2 w0 f) =
      l2.filterMap (fun f => pairVariant meta (hashFn buffer) p cfg enc w0 f) :=
    List.filterMap_congr (fun f hfm =>
      hpv_agree w0 f (fun hc => countOcc_zero_not_mem hF2 (hc.2 ▸ hfm)))
  have hrowE : cfg.formats.filterMap
      (fun f => pairVariant meta (hashFn buffer) p cfg enc w0 f) =
      l1.filterMap (fun f => pairVariant meta (hashFn buffer) p cfg enc w0 f) ++
        l2.filterMap (fun f => pairVariant meta (hashFn buffer) p cfg enc w0 f) := by
    rw [hF, List.filterMap_append]
    simp only [List.filterMap_cons, hpv1]
  have hrowE2 : cfg.formats.filterMap
      (fun f => pairVariant meta (hashFn buffer) p cfg enc2 w0 f) =
      l1.filterMap (fun f => pairVariant meta (hashFn buffer) p cfg enc w0 f) ++
        v0 :: l2.filterMap (fun f => pairVariant meta (hashFn buffer) p cfg enc w0 f) := by
    rw [hF, List.filterMap_append]
    simp only [List.filterMap_cons, hv0, hl1, hl2]
  have hmapt1 : t1.map (fun w => cfg.formats.filterMap
      (fun f => pairVariant meta (hashFn buffer) p cfg enc2 w f)) =
      t1.map (fun w => cfg.formats.filterMap
        (fun f => pairVariant meta (hashFn buffer) p cfg enc w f)) :=
    List.map_congr_left (fun w hwm =>
      hrow_ne w (fun he => countOcc_zero_not_mem hT1 (he ▸ hwm)))
  have hmapt2 : t2.map (fun w => cfg.formats.filterMap
      (fun f => pairVariant meta (hashFn buffer) p cfg enc2 w f)) =
      t2.map (fun w => cfg.formats.filterMap
        (fun f => pairVariant meta (hashFn buffer) p cfg enc w f)) :=
    List.map_congr_left (fun w hwm =>
      hrow_ne w (fun he => countOcc_zero_not_mem hT2 (he ▸ hwm)))
  have e1 : processImageToVariants dec enc hashFn buffer p cfg =
      some (concatAll (t1.map (fun w => cfg.formats.filterMap
          (fun f => pairVariant meta (hashFn buffer) p cfg enc w f))) ++
        ((l1.filterMap (fun f => pairVariant meta (hashFn buffer) p cfg enc w0 f) ++
          l2.filterMap (fun f => pairVariant meta (hashFn buffer) p cfg enc w0 f)) ++
         concatAll (t2.map (fun w => cfg.formats.filterMap
          (fun f => pairVariant meta (hashFn buffer) p cfg enc w f))))) := by
    rw [processImageToVariants_eq_rows dec enc hashFn buffer p cfg meta hdec, hT]
    rw [List.map_append, List.map_cons, concatAll_append]
    simp only [concatAll, hrowE]
  have e2 : processImageToVariants dec enc2 hashFn buffer p cfg =
      some (concatAll (t1.map (fun w => cfg.formats.filterMap
          (fun f => pairVariant meta (hashFn buffer) p cfg enc w f))) ++
        ((l1.filterMap (fun f => pairVariant meta (hashFn buffer) p cfg enc w0 f) ++
          v0 :: l2.filterMap (fun f => pairVariant meta (hashFn buffer) p cfg enc w0 f)) ++
         concatAll (t2.map (fun w => cfg.formats.filterMap
          (fun f => pairVariant meta (hashFn buffer) p cfg enc w f))))) := by
    rw [processImageToVariants_eq_rows dec enc2 hashFn buffer p cfg meta hdec, hT]
    rw [List.map_append, List.map_cons, concatAll_append]
    simp only [concatAll, hrowE2, hmapt1, hmapt2]
  refine ⟨_, _, e1, e2, ?_, ?_, ?_⟩
  · simp only [List.length_append, List.length_cons]
    omega
  · intro v hv
    simp only [List.mem_append, List.mem_cons] at hv ⊢
    tauto
  · intro v hv hnv
    simp only [List.mem_append, List.mem_cons] at hv hnv
    have hveq : v = v0 := by tauto
    rw [hveq]
    exact hv0

/-- C4 witness scenario configuration. -/
def c4Config : Config := mkConfig [100] ["webp", "jpeg"]

/-- C4 witness encoder: the webp encode fails, jpeg succeeds. -/
def c4enc : Nat → String → Option Buffer := fun w f =>
  if f = "webp" then none else some [w % 256]

/-- C4 witness counterfactual encoder: succeeds at (100, webp), agrees
with `c4enc` elsewhere. -/
def c4enc2 : Nat → String → Option Buffer := fun w f =>
  if w = 100 && f = "webp" then some [7] else c4enc w f

theorem c4_per_pair_failure_isolation_witness :
    ∃ vs vs2,
      processImageToVariants decJpeg200 c4enc hashConst [3] "photo.jpg" c4Config =
        some vs ∧
      processImageToVariants decJpeg200 c4enc2 hashConst [3] "photo.jpg" c4Config =
        some vs2 ∧
      vs2.length = vs.length + 1 ∧
      (∀ v ∈ vs, v ∈ vs2) ∧
      (∀ v ∈ vs2, v ∉ vs →
        pairVariant (ImageMeta.mk 200 100 "jpeg") (hashConst [3]) "photo.jpg" c4Config
          c4enc2 100 "webp" = some v) :=
  c4_per_pair_failure_isolation decJpeg200 c4enc c4enc2 hashConst [3] "photo.jpg"
    c4Config (ImageMeta.mk 200 100 "jpeg") 100 "webp" [7]
    rfl (by decide) (by decide) (by decide) (by decide) (by decide)
    (fun w f h => by
      simp only [c4enc2]
      rw [if_neg (by simpa using h)])

end OptImg
